import Mathlib

/-!
Verification of the QuDAG benchmarking core (`qudag/benchmarking`).

This file gives a shallow embedding of the benchmark execution engine:

* `BenchmarkRunner.run` from `benchmarks/core/runner.py` (warmup, measured
  iterations, retry-on-error bookkeeping);
* the adaptive-sampling loop of `OptimizedBenchmarkRunner.run_benchmark_async`
  and `_is_stable` from `optimized_benchmark_runner.py`;
* the batching path `optimize_for_batching` / `_process_batch`;
* the `LRUCache` (TTL + LRU eviction) together with `_persist_cache` and
  `_warm_cache`;
* the latency aggregation of `MetricCollector._collect_latency_metrics` and
  `LatencyMetric.collect` from `benchmarks/metrics/`;
* the result re-sorting of `BenchmarkRunner._run_parallel`.

Durations and timestamps are modelled as exact rationals (`ℚ`); wall-clock
reads (`time.perf_counter()`, `datetime.now()`) become explicit parameters.
Python dictionaries become insertion-ordered association lists, Python
exceptions become `Except`/`Option` results.
-/

namespace Bench

/-! ### Association-list primitives mirroring Python `dict` operations

Python dictionaries preserve insertion order and have unique keys; we model
them as association lists where assignment replaces in place when the key is
present and appends otherwise.
-/

/-- Python `d[k]` / `k in d`: first value stored under `k`, if any. -/
def dictGet {α : Type} (k : String) : List (String × α) → Option α
  | [] => none
  | (k', v) :: rest => if k' = k then some v else dictGet k rest

/-- Python `d[k] = v`: replace in place when present, append otherwise. -/
def dictInsert {α : Type} (k : String) (v : α) : List (String × α) → List (String × α)
  | [] => [(k, v)]
  | (k', v') :: rest => if k' = k then (k, v) :: rest else (k', v') :: dictInsert k v rest

/-- Python `del d[k]`: drop the (unique) binding of `k`. -/
def dictErase {α : Type} (k : String) : List (String × α) → List (String × α)
  | [] => []
  | (k', v') :: rest => if k' = k then rest else (k', v') :: dictErase k rest

/-! ### Statistics helpers (`statistics` module functions used by the code) -/

/-- `statistics.mean`. -/
def mean (l : List ℚ) : ℚ := l.sum / l.length

/-- Sample variance with Bessel's correction, the square of `statistics.stdev`. -/
def sampleVariance (l : List ℚ) : ℚ :=
  (l.map (fun x => (x - mean l) ^ 2)).sum / ((l.length : ℚ) - 1)

/-- `statistics.stdev`: square root of the sample variance.  The exact square
root of a rational is in general irrational; we use the rational integer-part
square root `Rat.sqrt` as the executable stand-in, which is adequate because no
claim in this development depends on the numeric value of a standard
deviation, only on its presence in an aggregate. -/
def stdev (l : List ℚ) : ℚ := Rat.sqrt (sampleVariance l)

/-- Python `min(l)` for nonempty `l` (0 as the unused empty default). -/
def listMin : List ℚ → ℚ
  | [] => 0
  | x :: xs => xs.foldl min x

/-- Python `max(l)` for nonempty `l` (0 as the unused empty default). -/
def listMax : List ℚ → ℚ
  | [] => 0
  | x :: xs => xs.foldl max x

/-- Python `sorted(l)` on numbers. -/
def sortQ (l : List ℚ) : List ℚ := l.mergeSort (fun a b => decide (a ≤ b))

/-- `statistics.median`: middle element of the sorted list, or the average of
the two middle elements when the length is even (callers guard nonemptiness). -/
def median (l : List ℚ) : ℚ :=
  let s := sortQ l
  let n := s.length
  if n % 2 = 1 then s.getD (n / 2) 0
  else (s.getD (n / 2 - 1) 0 + s.getD (n / 2) 0) / 2

/-- `LatencyMetric._percentile`: `sorted_data[int(len * p)]`, clamped to the
last element when the index overflows.  `int(...)` truncation of the float
product is modelled as the floor of the exact rational product. -/
def percentile (data : List ℚ) (p : ℚ) : ℚ :=
  if data.isEmpty then 0
  else
    let s := sortQ data
    let index := (⌊(data.length : ℚ) * p⌋).toNat
    if s.length ≤ index then s.getD (s.length - 1) 0
    else s.getD index 0

/-! ### `BenchmarkRunner.run` (`benchmarks/core/runner.py`, lines 51-126)

A workload models `benchmark_func`: the call with global call index `i`
(warmup calls included) either raises (`.error`) or succeeds, in which case
the surrounding `self.timer()` pair measures the returned duration.  The
return value of the workload is not modelled; no claim depends on it.
The `timeout` configuration is `None` throughout (the threaded timeout path
is out of scope of the claims treated here).
-/

/-- The slice of `BenchmarkRunner.__init__` configuration read by `run`. -/
structure RunnerConfig where
  iterations : Nat
  warmup : Nat
  retry_on_error : Bool
  max_retries : Nat
deriving Repr, DecidableEq

/-- A workload: call index ↦ raised exception or measured duration. -/
def Workload : Type := Nat → Except String ℚ

/-- The warmup loop of `run`: `for _ in range(self.warmup): benchmark_func(...)`.
Exceptions propagate (the warmup loop is outside the `try`).  Returns the next
global call index. -/
def warmupLoop (f : Workload) : Nat → Nat → Except String Nat
  | 0, callIdx => .ok callIdx
  | n + 1, callIdx =>
    match f callIdx with
    | .ok _ => warmupLoop f n (callIdx + 1)
    | .error e => .error e

/-- Mutable state threaded through the measuring loop of `run`. -/
structure MeasureState where
  callIdx : Nat
  execution_times : List ℚ
  completed_iterations : Nat
  errors : Nat
deriving Repr, DecidableEq

/-- The measuring loop `for i in range(self.iterations)` of `run`.  On success
the duration is appended and `completed_iterations` is incremented.  On an
exception, `errors` is incremented; when `retry_on_error` holds and
`errors <= max_retries` the code executes `i -= 1; continue` — but reassigning
the loop variable of a Python `for i in range(...)` loop does not affect the
underlying iterator, so the failed logical iteration is consumed without
producing a sample.  Otherwise the exception is re-raised. -/
def measureLoop (cfg : RunnerConfig) (f : Workload) :
    Nat → MeasureState → Except String MeasureState
  | 0, st => .ok st
  | n + 1, st =>
    match f st.callIdx with
    | .ok d =>
        measureLoop cfg f n
          { st with
            callIdx := st.callIdx + 1
            execution_times := st.execution_times ++ [d]
            completed_iterations := st.completed_iterations + 1 }
    | .error e =>
        let errors' := st.errors + 1
        if cfg.retry_on_error ∧ errors' ≤ cfg.max_retries then
          measureLoop cfg f n { st with callIdx := st.callIdx + 1, errors := errors' }
        else .error e

/-- The fields of the result dictionary built by `run` that the claims read. -/
structure RunResult where
  iterations : Nat
  execution_times : List ℚ
  completed_iterations : Nat
  errors : Nat
deriving Repr, DecidableEq

/-- `BenchmarkRunner.run` without a metric collector attached: warmup phase,
measuring loop, result assembly. -/
def BenchmarkRunner.run (cfg : RunnerConfig) (f : Workload) : Except String RunResult := do
  let c ← warmupLoop f cfg.warmup 0
  let st ← measureLoop cfg f cfg.iterations ⟨c, [], 0, 0⟩
  pure ⟨cfg.iterations, st.execution_times, st.completed_iterations, st.errors⟩

/-! ### Adaptive sampling (`optimized_benchmark_runner.py`, lines 189-262)

`run_benchmark_async` on a cache miss: `iterations = warmup_iterations +
config.iterations`; with `adaptive_sampling` the loop is
`for i in range(current_iterations)` with `current_iterations` initially
`min_iterations = 5`.  A Python `range` captures its bound once, so the later
reassignment `current_iterations = min(current_iterations + 2, max_iterations)`
inside the loop body cannot extend the iteration (and `current_iterations` is
never read again), which is why the model does not thread it.  A workload here
is deterministic-duration: pass index ↦ measured duration in microseconds.
-/

/-- The configuration fields of `BenchmarkConfig` read by the sampling loop. -/
structure BenchmarkConfig where
  iterations : Nat
  warmup_iterations : Nat
  adaptive_sampling : Bool
deriving Repr, DecidableEq

/-- `_is_stable`: `cv = stdev/mean < threshold` with fewer than 3 samples
rejected and `cv = inf` when the mean is not positive.  For `mean > 0` and a
nonnegative threshold, `sqrt(variance)/mean < t` holds exactly when
`variance < t^2 * mean^2`, which is how the float comparison is rendered in
exact rational arithmetic. -/
def isStable (samples : List ℚ) (threshold : ℚ := 1 / 20) : Bool :=
  if samples.length < 3 then false
  else
    let m := mean samples
    if 0 < m then decide (sampleVariance samples < threshold ^ 2 * m ^ 2)
    else false

/-- Body of the `for i in range(current_iterations)` loop of
`run_benchmark_async`: warmup passes are not recorded; each measured pass
appends its duration; under adaptive sampling, once
`i >= min_iterations + warmup_iterations` a stable sample list breaks the
loop. -/
def sampleLoop (cfg : BenchmarkConfig) (dur : Nat → ℚ) (minIterations : Nat) :
    Nat → Nat → List ℚ → List ℚ
  | 0, _, samples => samples
  | n + 1, i, samples =>
    if i < cfg.warmup_iterations then
      sampleLoop cfg dur minIterations n (i + 1) samples
    else
      let samples' := samples ++ [dur i]
      if cfg.adaptive_sampling ∧ minIterations + cfg.warmup_iterations ≤ i then
        if isStable samples' then samples'
        else sampleLoop cfg dur minIterations n (i + 1) samples'
      else sampleLoop cfg dur minIterations n (i + 1) samples'

/-- The sample list collected by `run_benchmark_async` on a cache miss; the
assembled `OptimizedResult` reports `samples = len(samples)` over this list. -/
def runBenchmarkSamples (cfg : BenchmarkConfig) (dur : Nat → ℚ) : List ℚ :=
  let iterations := cfg.warmup_iterations + cfg.iterations
  let current_iterations := if cfg.adaptive_sampling then 5 else iterations
  sampleLoop cfg dur 5 current_iterations 0 []

/-! ### Batch coordination (`optimize_for_batching` / `_process_batch`,
`optimized_benchmark_runner.py`, lines 309-358)

Requests of one workload type are identified by a numeric handle.  Submitting
appends to the per-type queue under `batch_lock`.  When the queue length
reaches `batch_size`, the wrapper executes `await self._process_batch(...)`
while it is still inside `with self.batch_lock:` — and `batch_lock` is a
non-reentrant `threading.Lock` whose second, synchronous `acquire()` at the
top of `_process_batch` runs on the same event-loop thread.  That acquire
blocks forever, so the flush body is never reached: no batch is taken off the
queue, no future is resolved or rejected, and the submitting coroutine (and
the whole event loop) hangs.  The dispatch logic of `_process_batch` itself
(lines 343-358) is modelled separately by `processBatchFallback` below.
-/

/-- Observable state of the coordinator for a single workload type:
the pending queue, the sizes of batches whose `_process_batch` body has run,
and the handles whose futures have been resolved. -/
structure BatchState where
  queue : List Nat
  flushes : List Nat
  resolved : List Nat
deriving Repr, DecidableEq

/-- Progress of a submission sequence: still accepting requests, or hung
forever on `batch_lock` (with the state frozen at the hang). -/
inductive BatchStep where
  | running : BatchState → BatchStep
  | deadlocked : BatchState → BatchStep
deriving Repr, DecidableEq

/-- `batched_wrapper`: under `batch_lock`, enqueue the request; if the queue
has reached `batch_size`, `await self._process_batch(...)` is executed while
`batch_lock` is still held, and `_process_batch` immediately re-acquires that
same non-reentrant lock on the same thread — the acquire never returns, so
the flush never runs and no handle is resolved. -/
def submitRequest (batch_size : Nat) (s : BatchState) (req : Nat) : BatchStep :=
  let queue' := s.queue ++ [req]
  if batch_size ≤ queue'.length then
    BatchStep.deadlocked { s with queue := queue' }
  else BatchStep.running { s with queue := queue' }

/-- Submit requests `0, 1, ..., n-1` of one workload type in order; once a
submission hangs, the later submissions are never reached. -/
def submitMany (batch_size n : Nat) : BatchStep :=
  (List.range n).foldl
    (fun st req =>
      match st with
      | BatchStep.running s => submitRequest batch_size s req
      | BatchStep.deadlocked s => BatchStep.deadlocked s)
    (BatchStep.running ⟨[], [], []⟩)

/-- Final state of a pending future after `_process_batch`. -/
inductive FutureOutcome (E V : Type) where
  | resolved : V → FutureOutcome E V
  | rejected : E → FutureOutcome E V
deriving Repr, DecidableEq

/-- The per-request fallback branch of `_process_batch` (no `__batch__`
attribute): `asyncio.gather` without `return_exceptions` raises the first
failure among the per-request tasks (modelled as the first in list order; the
claims depend only on there being a single shared exception), and the `except`
clause then calls `set_exception` on every future of the batch.  Only when
every task succeeds does each future receive its own result. -/
def processBatchFallback {E V : Type} (outcomes : List (Except E V)) :
    List (FutureOutcome E V) :=
  match outcomes.mapM id with
  | .ok results => results.map FutureOutcome.resolved
  | .error e => outcomes.map (fun _ => FutureOutcome.rejected e)

/-! ### `LRUCache` (`optimized_benchmark_runner.py`, lines 62-106)

`cache` is the Python dict `key -> (value, timestamp)`, `order` the deque of
keys from least- to most-recently used.  `datetime.now()` becomes the explicit
parameter `now`; `datetime.now() - timestamp < timedelta(seconds=ttl)` becomes
`now - timestamp < ttl_seconds`. -/

structure LRUCache (V : Type) where
  cache : List (String × V × ℚ)
  order : List String
  max_size : Nat
  ttl_seconds : ℚ
  hits : Nat
  misses : Nat
deriving Repr, DecidableEq

/-- A freshly constructed `LRUCache(max_size, ttl_seconds)`. -/
def LRUCache.empty (V : Type) (max_size : Nat) (ttl_seconds : ℚ) : LRUCache V :=
  ⟨[], [], max_size, ttl_seconds, 0, 0⟩

/-- Representation invariant maintained by the Python object: `order` holds
exactly the keys of `cache`, each once. -/
def LRUCache.wf {V : Type} (s : LRUCache V) : Prop :=
  s.order.Nodup ∧ s.order.Perm (s.cache.map Prod.fst)

instance {V : Type} (s : LRUCache V) : Decidable s.wf := by
  unfold LRUCache.wf; infer_instance

/-- `LRUCache.get`: on a fresh hit, count a hit and promote the key to
most-recently-used; on an expired entry, evict it and count a miss; on an
absent key, count a miss. -/
def LRUCache.get {V : Type} (s : LRUCache V) (now : ℚ) (key : String) :
    Option V × LRUCache V :=
  match dictGet key s.cache with
  | some (v, timestamp) =>
    if now - timestamp < s.ttl_seconds then
      (some v, { s with hits := s.hits + 1, order := s.order.erase key ++ [key] })
    else
      (none, { s with
        cache := dictErase key s.cache
        order := s.order.erase key
        misses := s.misses + 1 })
  | none => (none, { s with misses := s.misses + 1 })

/-- `LRUCache.put`: drop the key from `order` when already present, else evict
the least-recently-used entry when at capacity; then store `(value, now)` and
append the key to `order`.  `none` models the `IndexError` that
`self.order.popleft()` raises when eviction is attempted on an empty deque
(only reachable with `max_size = 0`). -/
def LRUCache.put {V : Type} (s : LRUCache V) (now : ℚ) (key : String) (v : V) :
    Option (LRUCache V) :=
  if (dictGet key s.cache).isSome then
    some { s with
      cache := dictInsert key (v, now) s.cache
      order := s.order.erase key ++ [key] }
  else if s.max_size ≤ s.cache.length then
    match s.order with
    | [] => none
    | oldest :: rest =>
      some { s with
        cache := dictInsert key (v, now) (dictErase oldest s.cache)
        order := rest ++ [key] }
  else
    some { s with
      cache := dictInsert key (v, now) s.cache
      order := s.order ++ [key] }

/-! ### Persistence (`_persist_cache` / `_warm_cache`, lines 160-182)

`_persist_cache` serializes `{key: value for key, (value, _) in cache.items()}`
(timestamps dropped); `_warm_cache` replays `cache.put(key, value)` for every
persisted pair into the freshly constructed cache.  Pickle/gzip round-tripping
is modelled as the identity on the pair list. -/

/-- The mapping written by `_persist_cache`. -/
def persistCache {V : Type} (s : LRUCache V) : List (String × V) :=
  s.cache.map (fun e => (e.1, e.2.1))

/-- The replay loop of `_warm_cache` over a persisted pair list. -/
def warmCache {V : Type} (now : ℚ) : LRUCache V → List (String × V) → Option (LRUCache V)
  | c, [] => some c
  | c, kv :: rest =>
    match c.put now kv.1 kv.2 with
    | none => none
    | some c' => warmCache now c' rest

/-! ### Latency aggregation (`benchmarks/metrics/collector.py` lines 156-175,
`benchmarks/metrics/latency.py` lines 58-93)

The collector's own operation-timing store maps an operation name to its list
of `{"start": ..., "end": ...}` records; `end` is `None` while open.  Field
dictionaries are association lists in the insertion order of the source. -/

/-- One entry of `MetricCollector._operation_timings[name]`; `stop` is the
Python dict field `"end"`. -/
structure OperationTiming where
  start : ℚ
  stop : Option ℚ
deriving Repr, DecidableEq

/-- The completed durations `end - start` of a timing list, in order. -/
def completedLatencies (timings : List OperationTiming) : List ℚ :=
  timings.filterMap (fun t => t.stop.map (fun e => e - t.start))

/-- `MetricCollector._collect_latency_metrics`: per operation with at least one
completed timing, the aggregate `{"avg", "min", "max", "count"}`. -/
def collectLatencyMetrics (opTimings : List (String × List OperationTiming)) :
    List (String × List (String × ℚ)) :=
  opTimings.filterMap (fun ot =>
    let latencies := completedLatencies ot.2
    if latencies.isEmpty then none
    else some (ot.1,
      [("avg", mean latencies), ("min", listMin latencies),
       ("max", listMax latencies), ("count", (latencies.length : ℚ))]))

/-- `LatencyMetric.collect`: per operation with at least one recorded duration,
the aggregate `{"count", "avg", "min", "max", "median", "p95", "p99",
"std_dev"}` over `self.operation_timings[name]`. -/
def latencyMetricCollect (opTimings : List (String × List ℚ)) :
    List (String × List (String × ℚ)) :=
  opTimings.filterMap (fun ot =>
    if ot.2.isEmpty then none
    else some (ot.1,
      [("count", (ot.2.length : ℚ)), ("avg", mean ot.2), ("min", listMin ot.2),
       ("max", listMax ot.2), ("median", median ot.2),
       ("p95", percentile ot.2 (95 / 100)), ("p99", percentile ot.2 (99 / 100)),
       ("std_dev", if 1 < ot.2.length then stdev ot.2 else 0)]))

/-! ### `MetricCollector` registry (`collector.py`, lines 44-79) -/

/-- A collected metric payload (`Dict[str, Any]` in the source): flat field
dictionaries for plain sources, per-operation aggregates for latency. -/
inductive MetricData where
  | flat : List (String × ℚ) → MetricData
  | perOperation : List (String × List (String × ℚ)) → MetricData
deriving Repr, DecidableEq

/-- Behavior of one registered source's `collect()` call: its return value or
the exception it raises. -/
abbrev SourceBehavior : Type := Except String MetricData

/-- The registry state of a `MetricCollector`: `available_metrics`,
the enabled `metrics` dict, and `_operation_timings`. -/
structure MetricCollectorState where
  available_metrics : List (String × SourceBehavior)
  metrics : List (String × SourceBehavior)
  operation_timings : List (String × List OperationTiming)

/-- `MetricCollector.collect(metric_name, ignore_errors)`: an unregistered
name returns `{}` before anything can raise; `"latency"` is special-cased to
`_collect_latency_metrics`; otherwise the source's `collect()` runs inside
`try`, with errors swallowed to `{}` exactly when `ignore_errors` is set. -/
def MetricCollector.collect (s : MetricCollectorState) (metric_name : String)
    (ignore_errors : Bool) : Except String MetricData :=
  match dictGet metric_name s.available_metrics with
  | none => .ok (.flat [])
  | some src =>
    if metric_name = "latency" then
      .ok (.perOperation (collectLatencyMetrics s.operation_timings))
    else
      match src with
      | .ok d => .ok d
      | .error e => if ignore_errors then .ok (.flat []) else .error e

/-- `MetricCollector.enable_metric(name)`: raise `ValueError` on an unknown
name, else copy the source into the enabled `metrics` dict. -/
def MetricCollector.enable (s : MetricCollectorState) (name : String) :
    Except String MetricCollectorState :=
  match dictGet name s.available_metrics with
  | none => .error ("Unknown metric: " ++ name)
  | some src => .ok { s with metrics := dictInsert name src s.metrics }

/-! ### Parallel suite ordering (`BenchmarkRunner._run_parallel`, lines 191-216)

Each workload runs on its own runner copy; results are appended in completion
order and then re-sorted with
`results.sort(key=lambda r: benchmarks.index(next(b for b in benchmarks
if b[0] == r["name"])))` — position of the first benchmark tuple whose name
matches the result's name.  Python's Timsort is modelled by the stable
`List.mergeSort`. -/

/-- The fields of a per-workload result dictionary relevant to ordering. -/
structure SuiteResult where
  name : String
  execution_times : List ℚ
deriving Repr, DecidableEq

/-- The re-sort key of `_run_parallel`. -/
def resultKey {α : Type} (benchmarks : List (String × α)) (r : SuiteResult) : Nat :=
  benchmarks.findIdx (fun b => decide (b.1 = r.name))

/-- The final `results.sort(key=...)` of `_run_parallel`. -/
def sortResults {α : Type} (benchmarks : List (String × α))
    (results : List SuiteResult) : List SuiteResult :=
  results.mergeSort (fun r₁ r₂ => decide (resultKey benchmarks r₁ ≤ resultKey benchmarks r₂))

/-! ### Concrete instances used to evaluate the theorems -/

/-- The workload of the C1 scenario: the second call (index 1) raises, every
other call succeeds with a 1-second duration. -/
def failsOnSecondCall : Workload := fun i => if i = 1 then .error "Simulated failure" else .ok 1

/-- A small well-formed cache state: two fresh entries, at capacity. -/
def sampleCache : LRUCache ℚ :=
  { cache := [("a", 1, 0), ("b", 2, 0)], order := ["a", "b"], max_size := 2,
    ttl_seconds := 10, hits := 0, misses := 0 }

/-- The state `sampleCache.put 5 "c" 3` produces: "a" (least recently used)
evicted, "c" inserted with timestamp 5. -/
def evictedCache : LRUCache ℚ :=
  { cache := [("b", 2, 0), ("c", 3, 5)], order := ["b", "c"], max_size := 2,
    ttl_seconds := 10, hits := 0, misses := 0 }

/-- A collector with the three default sources registered (the constructor
registers `memory`, `cpu` and `latency`) and nothing enabled. -/
def defaultCollector : MetricCollectorState :=
  { available_metrics :=
      [("memory", .ok (.flat [])), ("cpu", .ok (.flat [])), ("latency", .ok (.flat []))],
    metrics := [], operation_timings := [] }

end Bench

deriving instance DecidableEq for Except

namespace Bench

/-! ### Helper lemmas about the dictionary primitives -/

theorem dictGet_eq_none_of_not_mem {α : Type} {k : String} :
    ∀ {l : List (String × α)}, k ∉ l.map Prod.fst → dictGet k l = none
  | [], _ => rfl
  | (k', v) :: rest, h => by
    have h1 : k' ≠ k := fun he => h (by simp [he])
    have h2 : k ∉ rest.map Prod.fst := fun hm => h (by simp [hm])
    simp [dictGet, h1, dictGet_eq_none_of_not_mem h2]

theorem dictGet_isSome_of_mem_keys {α : Type} {k : String} :
    ∀ {l : List (String × α)}, k ∈ l.map Prod.fst → (dictGet k l).isSome
  | (k', v) :: rest, h => by
    by_cases he : k' = k
    · simp [dictGet, he]
    · have : k ∈ rest.map Prod.fst := by
        rcases (List.mem_cons.mp h) with h1 | h1
        · exact absurd h1.symm he
        · exact h1
      simp [dictGet, he, dictGet_isSome_of_mem_keys this]

theorem dictGet_dictErase_self {α : Type} {k : String} :
    ∀ {l : List (String × α)}, (l.map Prod.fst).Nodup → dictGet k (dictErase k l) = none
  | [], _ => rfl
  | (k', v) :: rest, h => by
    rw [List.map_cons, List.nodup_cons] at h
    by_cases he : k' = k
    · subst he
      rw [show dictErase k' ((k', v) :: rest) = rest from by simp [dictErase]]
      exact dictGet_eq_none_of_not_mem (by simpa using h.1)
    · simp [dictErase, he, dictGet, dictGet_dictErase_self h.2]

theorem dictGet_dictErase_of_none {α : Type} {k k' : String} :
    ∀ {l : List (String × α)}, dictGet k l = none → dictGet k (dictErase k' l) = none
  | [], _ => rfl
  | (k₀, v) :: rest, h => by
    by_cases he : k₀ = k
    · simp [dictGet, he] at h
    · rw [dictGet, if_neg he] at h
      by_cases he' : k₀ = k'
      · simpa [dictErase, he'] using h
      · simp [dictErase, he', dictGet, he, dictGet_dictErase_of_none h]

theorem length_dictErase_of_isSome {α : Type} {k : String} :
    ∀ {l : List (String × α)}, (dictGet k l).isSome →
      (dictErase k l).length + 1 = l.length
  | (k', v) :: rest, h => by
    by_cases he : k' = k
    · simp [dictErase, he]
    · rw [dictGet, if_neg he] at h
      simp [dictErase, he, length_dictErase_of_isSome h]

theorem length_dictInsert_of_isSome {α : Type} {k : String} {v : α} :
    ∀ {l : List (String × α)}, (dictGet k l).isSome →
      (dictInsert k v l).length = l.length
  | (k', v') :: rest, h => by
    by_cases he : k' = k
    · simp [dictInsert, he]
    · rw [dictGet, if_neg he] at h
      simp [dictInsert, he, length_dictInsert_of_isSome h]

theorem dictInsert_of_none {α : Type} {k : String} {v : α} :
    ∀ {l : List (String × α)}, dictGet k l = none → dictInsert k v l = l ++ [(k, v)]
  | [], _ => rfl
  | (k', v') :: rest, h => by
    by_cases he : k' = k
    · simp [dictGet, he] at h
    · rw [dictGet, if_neg he] at h
      simp [dictInsert, he, dictInsert_of_none h]

theorem dictGet_append_of_none {α : Type} {k : String} :
    ∀ {l₁ l₂ : List (String × α)}, dictGet k l₁ = none →
      dictGet k (l₁ ++ l₂) = dictGet k l₂
  | [], _, _ => rfl
  | (k', v) :: rest, l₂, h => by
    by_cases he : k' = k
    · simp [dictGet, he] at h
    · rw [dictGet, if_neg he] at h
      simp [dictGet, he, dictGet_append_of_none h]

/-! ### C1 — retry accounting in `BenchmarkRunner.run` -/

set_option maxRecDepth 8000

/-- C1: the claim says that with iterations=5, warmup=0, retry_on_error=true,
max_retries=2 and a workload failing only on its 2nd call, the run ends with
`completed_iterations == 5`, a retried failure never consuming a logical
iteration.  In the code, `i -= 1; continue` does not rewind a `range` loop, so
the retried failure consumes iteration `i = 1`: the run completes with
`completed_iterations = 4`, `errors = 1` and only 4 recorded durations. -/
theorem C1_retry_consumes_iteration :
    BenchmarkRunner.run ⟨5, 0, true, 2⟩ failsOnSecondCall =
      .ok ⟨5, [1, 1, 1, 1], 4, 1⟩ ∧
    (BenchmarkRunner.run ⟨5, 0, true, 2⟩ failsOnSecondCall).map
      RunResult.completed_iterations ≠ .ok 5 := by
  constructor
  · rfl
  · decide

/-! ### C2 — the adaptive sampling loop never adapts -/

/-- C2: the claim says a zero-variance workload stops exactly at the minimum
sample count (5) and a high-variance workload continues up to the configured
maximum.  The loop bound `range(current_iterations)` is captured at entry as
`min_iterations = 5` and the stability check requires
`i >= min_iterations + warmup_iterations`, which no `i < 5` satisfies: the
loop always runs exactly 5 passes.  With the default `warmup_iterations = 2`
a zero-variance workload yields 3 samples, not 5; with `warmup_iterations = 0`
a high-variance workload still stops at 5 samples instead of continuing
toward the configured maximum (here 10 and 12 total iterations). -/
theorem C2_adaptive_sampler_never_adapts :
    (runBenchmarkSamples ⟨10, 2, true⟩ (fun _ => 1)).length = 3 ∧
    (runBenchmarkSamples ⟨10, 0, true⟩ (fun _ => 1)).length = 5 ∧
    (runBenchmarkSamples ⟨10, 0, true⟩ (fun i => if i % 2 = 0 then 1 else 100)).length = 5 ∧
    (runBenchmarkSamples ⟨10, 2, true⟩ (fun i => if i % 2 = 0 then 1 else 100)).length = 3 := by
  refine ⟨rfl, rfl, rfl, rfl⟩

/-! ### C3 — 25 submissions against batch_size 10 -/

/-- C3: the claim says 25 submitted same-type requests with batch_size=10
produce exactly 3 flushes of sizes 10, 10 and 5, with all 25 pending handles
resolved.  The code instead deadlocks at the 10th submission: the wrapper
awaits `_process_batch` while still holding the non-reentrant `batch_lock`
that `_process_batch` re-acquires, so the hang happens with 10 requests
queued, zero flushes performed and zero handles resolved, and the remaining
15 submissions are never reached. -/
theorem C3_flush_deadlocks :
    submitMany 10 25 = BatchStep.deadlocked ⟨List.range 10, [], []⟩ := by
  decide

/-! ### C4 — per-request dispatch has no failure isolation -/

/-- C4 (counterexample): the claim says a failure of one request in a
fallback-dispatched batch rejects only that request's handle.  With a batch
of three requests whose second raises, every handle is rejected with the same
exception, including the two whose tasks succeeded. -/
theorem C4_counterexample :
    processBatchFallback [Except.ok (10 : Nat), Except.error "boom", Except.ok 30] =
      [FutureOutcome.rejected "boom", FutureOutcome.rejected "boom",
       FutureOutcome.rejected "boom"] ∧
    processBatchFallback [Except.ok (10 : Nat), Except.error "boom", Except.ok 30] ≠
      [FutureOutcome.resolved 10, FutureOutcome.rejected "boom",
       FutureOutcome.resolved 30] := by
  refine ⟨rfl, by decide⟩

theorem mapM_id_ok_of_forall {E V : Type} :
    ∀ (outcomes : List (Except E V)), (∀ o ∈ outcomes, o.isOk) →
      ∃ vs : List V, outcomes = vs.map Except.ok ∧ outcomes.mapM id = Except.ok vs
  | [], _ => ⟨[], rfl, rfl⟩
  | o :: rest, h => by
    match o, h o (List.mem_cons_self o rest) with
    | .ok v, _ =>
      obtain ⟨vs, h1, h2⟩ :=
        mapM_id_ok_of_forall rest (fun o' ho' => h o' (List.mem_cons_of_mem _ ho'))
      refine ⟨v :: vs, by simp [h1], ?_⟩
      rw [List.mapM_cons, h2]
      rfl

theorem mapM_id_error_of_exists {E V : Type} :
    ∀ (outcomes : List (Except E V)), (∃ o ∈ outcomes, ¬ o.isOk) →
      ∃ e : E, outcomes.mapM id = Except.error e
  | o :: rest, h => by
    match o with
    | .error e => exact ⟨e, by rw [List.mapM_cons]; rfl⟩
    | .ok v =>
      have : ∃ o' ∈ rest, ¬ o'.isOk := by
        obtain ⟨o', ho', hno⟩ := h
        rcases List.mem_cons.mp ho' with h1 | h1
        · subst h1; simp [Except.isOk, Except.toBool] at hno
        · exact ⟨o', h1, hno⟩
      obtain ⟨e, he⟩ := mapM_id_error_of_exists rest this
      refine ⟨e, ?_⟩
      rw [List.mapM_cons, he]
      rfl

/-- C4 (amended): in the fallback path each request is invoked independently,
but there is no per-request failure isolation: when every request succeeds
each pending handle receives its own result, and when any request fails every
pending handle of the flush is rejected with the same exception. -/
theorem C4_fallback_all_or_nothing {E V : Type} (outcomes : List (Except E V)) :
    ((∀ o ∈ outcomes, o.isOk) →
      ∃ vs : List V, outcomes = vs.map Except.ok ∧
        processBatchFallback outcomes = vs.map FutureOutcome.resolved) ∧
    ((∃ o ∈ outcomes, ¬ o.isOk) →
      ∃ e : E, processBatchFallback outcomes =
        outcomes.map (fun _ => FutureOutcome.rejected e)) := by
  constructor
  · intro h
    obtain ⟨vs, h1, h2⟩ := mapM_id_ok_of_forall outcomes h
    refine ⟨vs, h1, ?_⟩
    unfold processBatchFallback
    rw [h2]
  · intro h
    obtain ⟨e, he⟩ := mapM_id_error_of_exists outcomes h
    refine ⟨e, ?_⟩
    unfold processBatchFallback
    rw [he]

/-- Witness for C4: the amended statement applied to a fully successful batch
and to a batch with one failing request. -/
theorem C4_fallback_all_or_nothing_witness :
    (∃ vs : List Nat,
      ([Except.ok 1, Except.ok 2] : List (Except String Nat)) = vs.map Except.ok ∧
      processBatchFallback ([Except.ok 1, Except.ok 2] : List (Except String Nat)) =
        vs.map FutureOutcome.resolved) ∧
    (∃ e : String, processBatchFallback ([Except.ok 1, Except.error "boom"] :
        List (Except String Nat)) =
      [Except.ok 1, Except.error "boom"].map (fun _ => FutureOutcome.rejected e)) :=
  ⟨(C4_fallback_all_or_nothing [Except.ok 1, Except.ok 2]).1 (by decide),
   (C4_fallback_all_or_nothing [Except.ok 1, Except.error "boom"]).2 (by decide)⟩

/-! ### C7 — latency aggregate fields through the collector -/

/-- C7 (counterexample): the claim says collecting the operation-latency
metric through the `MetricCollector` yields count/avg/min/max/median/p95/p99/
stddev.  For an operation with two completed timings the collector's
aggregate carries only avg, min, max and count: there is no median field. -/
theorem C7_counterexample :
    (collectLatencyMetrics [("op", [⟨0, some 1⟩, ⟨2, some 4⟩])]).map
      (fun e => (e.1, e.2.map Prod.fst)) = [("op", ["avg", "min", "max", "count"])] ∧
    "median" ∉ ((dictGet "op"
      (collectLatencyMetrics [("op", [⟨0, some 1⟩, ⟨2, some 4⟩])])).getD []).map
        Prod.fst := by
  refine ⟨rfl, by decide⟩

/-- C7 (amended): for every operation with at least one completed timing, the
aggregate produced through `MetricCollector._collect_latency_metrics` contains
exactly the fields avg, min, max and count; the full
count/avg/min/max/median/p95/p99/std_dev aggregate is produced only by
`LatencyMetric.collect`, which the collector's latency special case
bypasses. -/
theorem C7_latency_aggregate_fields (opName : String) (ots : List OperationTiming)
    (ds : List ℚ) (h1 : (completedLatencies ots).isEmpty = false)
    (h2 : ds.isEmpty = false) :
    (collectLatencyMetrics [(opName, ots)]).map (fun e => (e.1, e.2.map Prod.fst)) =
      [(opName, ["avg", "min", "max", "count"])] ∧
    (latencyMetricCollect [(opName, ds)]).map (fun e => (e.1, e.2.map Prod.fst)) =
      [(opName, ["count", "avg", "min", "max", "median", "p95", "p99", "std_dev"])] := by
  have h1' : ¬ completedLatencies ots = [] := by
    intro hE; rw [hE] at h1; simp at h1
  have h2' : ¬ ds = [] := by
    intro hE; rw [hE] at h2; simp at h2
  constructor
  · simp [collectLatencyMetrics, h1']
  · simp [latencyMetricCollect, h2']

/-- Witness for C7: one completed timing and one recorded duration. -/
theorem C7_latency_aggregate_fields_witness :
    (collectLatencyMetrics [("op", [⟨0, some 1⟩])]).map
      (fun e => (e.1, e.2.map Prod.fst)) = [("op", ["avg", "min", "max", "count"])] ∧
    (latencyMetricCollect [("op", [1, 2])]).map (fun e => (e.1, e.2.map Prod.fst)) =
      [("op", ["count", "avg", "min", "max", "median", "p95", "p99", "std_dev"])] :=
  C7_latency_aggregate_fields "op" [⟨0, some 1⟩] [1, 2] (by decide) (by decide)

/-! ### C10 — unknown metric names: collect vs enable_metric -/

/-- C10: for a metric name never registered as a source,
`collect(name, ignore_errors=False)` returns the empty mapping and never
raises (with either value of ignore_errors), while `enable_metric(name)`
raises `ValueError`. -/
theorem C10_unknown_metric (s : MetricCollectorState) (name : String)
    (h : dictGet name s.available_metrics = none) :
    MetricCollector.collect s name false = .ok (.flat []) ∧
    MetricCollector.collect s name true = .ok (.flat []) ∧
    MetricCollector.enable s name = .error ("Unknown metric: " ++ name) := by
  refine ⟨?_, ?_, ?_⟩ <;> simp [MetricCollector.collect, MetricCollector.enable, h]

/-- Witness for C10: the default collector (memory/cpu/latency registered) and
the unregistered name "disk". -/
theorem C10_unknown_metric_witness :
    MetricCollector.collect defaultCollector "disk" false = .ok (.flat []) ∧
    MetricCollector.collect defaultCollector "disk" true = .ok (.flat []) ∧
    MetricCollector.enable defaultCollector "disk" =
      .error ("Unknown metric: " ++ "disk") :=
  C10_unknown_metric defaultCollector "disk" (by decide)

end Bench

namespace Bench

/-! ### Further dictionary length lemmas -/

theorem length_dictErase_le {α : Type} {k : String} :
    ∀ {l : List (String × α)}, (dictErase k l).length ≤ l.length
  | [] => Nat.le_refl _
  | (k', v) :: rest => by
    by_cases he : k' = k
    · simp [dictErase, he]
    · simpa [dictErase, he] using length_dictErase_le (l := rest)

theorem length_dictInsert_of_none {α : Type} {k : String} {v : α} :
    ∀ {l : List (String × α)}, dictGet k l = none →
      (dictInsert k v l).length = l.length + 1
  | [], _ => rfl
  | (k', v') :: rest, h => by
    by_cases he : k' = k
    · simp [dictGet, he] at h
    · rw [dictGet, if_neg he] at h
      simp [dictInsert, he, length_dictInsert_of_none h]

/-! ### C5 — `LRUCache.get` case behavior -/

/-- C5: for every key and well-formed cache state: a present, unexpired entry
(`now - inserted_at < ttl`) is returned with a hit recorded and the key
promoted to most-recently-used; a present but expired entry is evicted with a
miss recorded and `None` returned; an absent key records a miss and returns
`None`. -/
theorem C5_lru_get_spec {V : Type} (s : LRUCache V) (now : ℚ) (key : String)
    (hw : s.wf) :
    (∀ v ts, dictGet key s.cache = some (v, ts) → now - ts < s.ttl_seconds →
      (s.get now key).1 = some v ∧
      (s.get now key).2.hits = s.hits + 1 ∧
      (s.get now key).2.misses = s.misses ∧
      (s.get now key).2.cache = s.cache ∧
      (s.get now key).2.order = s.order.erase key ++ [key]) ∧
    (∀ v ts, dictGet key s.cache = some (v, ts) → ¬ now - ts < s.ttl_seconds →
      (s.get now key).1 = none ∧
      (s.get now key).2.misses = s.misses + 1 ∧
      (s.get now key).2.hits = s.hits ∧
      dictGet key (s.get now key).2.cache = none) ∧
    (dictGet key s.cache = none →
      (s.get now key).1 = none ∧
      (s.get now key).2.misses = s.misses + 1 ∧
      (s.get now key).2.cache = s.cache) := by
  have hnd : (s.cache.map Prod.fst).Nodup := hw.2.nodup hw.1
  refine ⟨?_, ?_, ?_⟩
  · intro v ts hget hfresh
    simp [LRUCache.get, hget, hfresh]
  · intro v ts hget hstale
    simp [LRUCache.get, hget, hstale, dictGet_dictErase_self hnd]
  · intro hget
    simp [LRUCache.get, hget]

/-- Witness for C5: the three cases on a concrete two-entry cache — a fresh
hit on "a" at time 5, an expired lookup of "a" at time 20, and a lookup of
the absent key "zzz". -/
theorem C5_lru_get_spec_witness :
    ((sampleCache.get 5 "a").1 = some 1 ∧
     (sampleCache.get 5 "a").2.hits = sampleCache.hits + 1 ∧
     (sampleCache.get 5 "a").2.misses = sampleCache.misses ∧
     (sampleCache.get 5 "a").2.cache = sampleCache.cache ∧
     (sampleCache.get 5 "a").2.order = sampleCache.order.erase "a" ++ ["a"]) ∧
    ((sampleCache.get 20 "a").1 = none ∧
     (sampleCache.get 20 "a").2.misses = sampleCache.misses + 1 ∧
     (sampleCache.get 20 "a").2.hits = sampleCache.hits ∧
     dictGet "a" (sampleCache.get 20 "a").2.cache = none) ∧
    ((sampleCache.get 5 "zzz").1 = none ∧
     (sampleCache.get 5 "zzz").2.misses = sampleCache.misses + 1 ∧
     (sampleCache.get 5 "zzz").2.cache = sampleCache.cache) :=
  ⟨(C5_lru_get_spec sampleCache 5 "a" (by decide)).1 1 0 (by decide)
     (by simp [sampleCache]; decide),
   (C5_lru_get_spec sampleCache 20 "a" (by decide)).2.1 1 0 (by decide)
     (by simp [sampleCache]; decide),
   (C5_lru_get_spec sampleCache 5 "zzz" (by decide)).2.2 (by decide)⟩

/-! ### C9 — the cache never exceeds its configured maximum size -/

/-- C9: the number of live entries never exceeds `max_size`: it holds for a
freshly constructed cache and is preserved by every `get` (which only
reorders or evicts) and every `put` (which evicts the least-recently-used
entry before inserting at capacity).  The `put` conclusion quantifies over
the successor state because `put` with `max_size = 0` models Python's
`IndexError` as `none`, leaving no state. -/
theorem C9_cache_size_bounded {V : Type} (s : LRUCache V) (now : ℚ) (key : String)
    (v : V) (hw : s.wf) (hle : s.cache.length ≤ s.max_size) :
    (∀ (max_size : Nat) (ttl : ℚ),
      (LRUCache.empty V max_size ttl).cache.length ≤ max_size) ∧
    ((s.get now key).2.cache.length ≤ (s.get now key).2.max_size) ∧
    (∀ s', s.put now key v = some s' → s'.cache.length ≤ s'.max_size) := by
  refine ⟨fun _ _ => by simp [LRUCache.empty], ?_, ?_⟩
  · unfold LRUCache.get
    cases hget : dictGet key s.cache with
    | some p =>
      by_cases hfr : now - p.2 < s.ttl_seconds
      · simpa [hfr] using hle
      · simpa [hfr] using Nat.le_trans length_dictErase_le hle
    | none => simpa using hle
  · intro s' hput
    unfold LRUCache.put at hput
    split at hput
    case isTrue hin =>
      injection hput with h
      subst h
      simpa [length_dictInsert_of_isSome hin] using hle
    case isFalse hin =>
      have habs : dictGet key s.cache = none := by
        cases hget : dictGet key s.cache with
        | some p => exact absurd (by simp [hget]) hin
        | none => rfl
      split at hput
      case isTrue hcap =>
        cases horder : s.order with
        | nil => rw [horder] at hput; simp at hput
        | cons oldest rest =>
          rw [horder] at hput
          injection hput with h
          subst h
          have holdmem : oldest ∈ s.cache.map Prod.fst :=
            (hw.2.mem_iff).1 (horder ▸ List.mem_cons_self oldest rest)
          have hsome := dictGet_isSome_of_mem_keys holdmem
          have hER := length_dictErase_of_isSome (l := s.cache) hsome
          have habs' : dictGet key (dictErase oldest s.cache) = none :=
            dictGet_dictErase_of_none habs
          have hIns := length_dictInsert_of_none (v := (v, now)) habs'
          simp only [hIns]
          omega
      case isFalse hcap =>
        injection hput with h
        subst h
        have hIns := length_dictInsert_of_none (v := (v, now)) habs
        simp only [hIns]
        omega

/-- Witness for C9: the empty cache, a miss `get`, and a `put` of a new key
into the at-capacity two-entry cache, which evicts "a" and inserts "c". -/
theorem C9_cache_size_bounded_witness :
    ((LRUCache.empty ℚ 2 10).cache.length ≤ 2) ∧
    ((sampleCache.get 5 "c").2.cache.length ≤ (sampleCache.get 5 "c").2.max_size) ∧
    (evictedCache.cache.length ≤ evictedCache.max_size) :=
  ⟨(C9_cache_size_bounded sampleCache 5 "c" 3 (by decide) (by decide)).1 2 10,
   (C9_cache_size_bounded sampleCache 5 "c" 3 (by decide) (by decide)).2.1,
   (C9_cache_size_bounded sampleCache 5 "c" 3 (by decide) (by decide)).2.2
     evictedCache (by decide)⟩

end Bench

namespace Bench

/-! ### C6 — persisting and reloading the cache -/

theorem dictGet_map_entry {V : Type} {k : String} {v : V} {now : ℚ} :
    ∀ {l : List (String × V × ℚ)} {ts : ℚ}, (l.map Prod.fst).Nodup →
      (k, v, ts) ∈ l →
      dictGet k (l.map (fun e => (e.1, e.2.1, now))) = some (v, now)
  | (k₀, v₀, ts₀) :: rest, ts, hnd, hmem => by
    rw [List.map_cons, List.nodup_cons] at hnd
    rcases List.mem_cons.mp hmem with h1 | h1
    · rw [Prod.mk.injEq] at h1
      obtain ⟨he1, he2⟩ := h1
      rw [Prod.mk.injEq] at he2
      subst he1
      simp [dictGet, he2.1]
    · have hk : k ∈ rest.map Prod.fst := by
        simpa using List.mem_map_of_mem Prod.fst h1
      by_cases he : k₀ = k
      · exact absurd (he ▸ hk) hnd.1
      · simp only [List.map_cons, dictGet, if_neg he]
        exact dictGet_map_entry hnd.2 h1

/-- The state `_warm_cache` reaches after replaying a list of fresh, pairwise
distinct keys into a cache with enough free capacity: every pair is appended
with timestamp `now`, in order, with no eviction. -/
theorem warmCache_replay {V : Type} (now : ℚ) :
    ∀ (data : List (String × V)) (c : LRUCache V),
      (data.map Prod.fst).Nodup →
      (∀ k, k ∈ data.map Prod.fst → dictGet k c.cache = none) →
      c.cache.length + data.length ≤ c.max_size →
      warmCache now c data =
        some { c with
          cache := c.cache ++ data.map (fun kv => (kv.1, kv.2, now))
          order := c.order ++ data.map Prod.fst }
  | [], c, _, _, _ => by simp [warmCache]
  | kv :: rest, c, hnd, habs, hlen => by
    rw [List.map_cons, List.nodup_cons] at hnd
    have habs0 : dictGet kv.1 c.cache = none := habs kv.1 (by simp)
    have hnotSome : ¬ (dictGet kv.1 c.cache).isSome := by simp [habs0]
    have hroom : ¬ c.max_size ≤ c.cache.length := by
      simp only [List.length_cons] at hlen
      omega
    have hput : c.put now kv.1 kv.2 =
        some { c with
          cache := c.cache ++ [(kv.1, kv.2, now)]
          order := c.order ++ [kv.1] } := by
      unfold LRUCache.put
      rw [if_neg hnotSome, if_neg hroom, dictInsert_of_none habs0]
    have hstep : warmCache now c (kv :: rest) =
        warmCache now
          { c with cache := c.cache ++ [(kv.1, kv.2, now)], order := c.order ++ [kv.1] }
          rest := by
      rw [warmCache, hput]
    rw [hstep]
    have hrec := warmCache_replay now rest
      { c with
        cache := c.cache ++ [(kv.1, kv.2, now)]
        order := c.order ++ [kv.1] }
      hnd.2
      (by
        intro k hk
        have hne : kv.1 ≠ k := fun he => hnd.1 (he ▸ hk)
        have h1 : dictGet k c.cache = none := habs k (by simp [hk])
        rw [dictGet_append_of_none h1]
        simp [dictGet, hne])
      (by simp only [List.length_append, List.length_singleton]
          simp only [List.length_cons] at hlen
          omega)
    rw [hrec]
    simp [List.append_assoc]

/-- C6: persisting a well-formed cache of N entries and reloading the
persisted pairs into a fresh empty cache of capacity at least N (positive TTL,
no time elapsed) yields a cache in which `get` returns the originally stored
value for every original key. -/
theorem C6_persist_reload {V : Type} (s : LRUCache V) (maxSize : Nat)
    (ttl now : ℚ) (hw : s.wf) (hcap : s.cache.length ≤ maxSize) (httl : 0 < ttl) :
    ∃ w, warmCache now (LRUCache.empty V maxSize ttl) (persistCache s) = some w ∧
      ∀ k v ts, (k, v, ts) ∈ s.cache → (w.get now k).1 = some v := by
  have hnd : (s.cache.map Prod.fst).Nodup := hw.2.nodup hw.1
  have hkeys : (persistCache s).map Prod.fst = s.cache.map Prod.fst := by
    simp [persistCache, List.map_map]
  have hrep := warmCache_replay now (persistCache s) (LRUCache.empty V maxSize ttl)
    (by rw [hkeys]; exact hnd)
    (fun k _ => rfl)
    (by simpa [LRUCache.empty, persistCache] using hcap)
  refine ⟨_, hrep, ?_⟩
  intro k v ts hmem
  have hentry : dictGet k ((persistCache s).map (fun kv => (kv.1, kv.2, now))) =
      some (v, now) := by
    have : (persistCache s).map (fun kv => (kv.1, kv.2, now)) =
        s.cache.map (fun e => (e.1, e.2.1, now)) := by
      simp [persistCache, List.map_map]
    rw [this]
    exact dictGet_map_entry hnd hmem
  unfold LRUCache.get
  simp only [LRUCache.empty, List.nil_append]
  rw [hentry]
  simp [sub_self, httl]

/-- Witness for C6: the two-entry sample cache persisted and reloaded into a
fresh cache of capacity 2 and TTL 10 at time 0. -/
theorem C6_persist_reload_witness :
    ∃ w, warmCache 0 (LRUCache.empty ℚ 2 10) (persistCache sampleCache) = some w ∧
      ∀ k v ts, (k, v, ts) ∈ sampleCache.cache → (w.get 0 k).1 = some v :=
  C6_persist_reload sampleCache 2 10 0 (by decide) (by decide) (by decide)

end Bench

namespace Bench

/-! ### C8 — parallel suite results keep the input order -/

theorem findIdx_name_getElem {α : Type} :
    ∀ (bs : List (String × α)) (i : Nat) (h : i < bs.length),
      (bs.map Prod.fst).Nodup →
      bs.findIdx (fun b => decide (b.1 = bs[i].1)) = i
  | b :: bs, 0, h, hnd => by
    simp [List.findIdx_cons]
  | b :: bs, i + 1, h, hnd => by
    rw [List.map_cons, List.nodup_cons] at hnd
    have hi : i < bs.length := Nat.lt_of_succ_lt_succ h
    have hmem : bs[i].1 ∈ bs.map Prod.fst :=
      List.mem_map_of_mem Prod.fst (List.getElem_mem hi)
    have hne : ¬ (b.1 = bs[i].1) := fun he => hnd.1 (he ▸ hmem)
    simp [List.findIdx_cons, hne, findIdx_name_getElem bs i hi hnd.2]

/-- C8: for every suite of distinctly named workloads run in parallel mode,
whatever the completion order of the individual workloads (the list of
results is any permutation of the per-workload outputs), the re-sort of
`_run_parallel` returns the workload names in exactly the input order. -/
theorem C8_parallel_result_order {α : Type} (benchmarks : List (String × α))
    (runOut : String × α → SuiteResult) (results : List SuiteResult)
    (hnames : (benchmarks.map Prod.fst).Nodup)
    (hout : ∀ b, (runOut b).name = b.1)
    (hperm : results.Perm (benchmarks.map runOut)) :
    (sortResults benchmarks results).map SuiteResult.name = benchmarks.map Prod.fst := by
  have hkey : ∀ (i : Nat), (hi : i < benchmarks.length) →
      resultKey benchmarks (runOut benchmarks[i]) = i := by
    intro i hi
    unfold resultKey
    rw [hout]
    exact findIdx_name_getElem benchmarks i hi hnames
  have hpair₀ : List.Pairwise
      (fun a b => resultKey benchmarks a < resultKey benchmarks b)
      (benchmarks.map runOut) := by
    rw [List.pairwise_iff_getElem]
    intro i j hi hj hij
    rw [List.length_map] at hi hj
    rw [List.getElem_map, List.getElem_map, hkey i hi, hkey j hj]
    exact hij
  have hperm₂ : (sortResults benchmarks results).Perm (benchmarks.map runOut) :=
    (List.mergeSort_perm results _).trans hperm
  have hsorted : List.Pairwise
      (fun a b => resultKey benchmarks a ≤ resultKey benchmarks b)
      (sortResults benchmarks results) := by
    have htr : ∀ a b c : SuiteResult,
        decide (resultKey benchmarks a ≤ resultKey benchmarks b) = true →
        decide (resultKey benchmarks b ≤ resultKey benchmarks c) = true →
        decide (resultKey benchmarks a ≤ resultKey benchmarks c) = true := by
      intro a b c h₁ h₂
      simp only [decide_eq_true_eq] at h₁ h₂ ⊢
      exact Nat.le_trans h₁ h₂
    have hto : ∀ a b : SuiteResult,
        (decide (resultKey benchmarks a ≤ resultKey benchmarks b) ||
         decide (resultKey benchmarks b ≤ resultKey benchmarks a)) = true := by
      intro a b
      simpa using Nat.le_total (resultKey benchmarks a) (resultKey benchmarks b)
    have := @List.sorted_mergeSort SuiteResult
      (fun r₁ r₂ => decide (resultKey benchmarks r₁ ≤ resultKey benchmarks r₂))
      htr hto results
    exact this.imp (fun h => by simpa using h)
  have hnd₀ : ((benchmarks.map runOut).map (resultKey benchmarks)).Nodup :=
    List.Pairwise.map (resultKey benchmarks)
      (fun _ _ h => Nat.ne_of_lt h) hpair₀
  have hndSorted : ((sortResults benchmarks results).map (resultKey benchmarks)).Nodup :=
    ((hperm₂.map (resultKey benchmarks)).symm).nodup hnd₀
  have hpairSorted : List.Pairwise
      (fun a b => resultKey benchmarks a < resultKey benchmarks b)
      (sortResults benchmarks results) := by
    have hne : List.Pairwise
        (fun a b => resultKey benchmarks a ≠ resultKey benchmarks b)
        (sortResults benchmarks results) := List.pairwise_map.mp hndSorted
    exact (hsorted.and hne).imp (fun h => Nat.lt_of_le_of_ne h.1 h.2)
  have heq : sortResults benchmarks results = benchmarks.map runOut := by
    haveI : IsAntisymm SuiteResult
        (fun a b => resultKey benchmarks a < resultKey benchmarks b) :=
      ⟨fun a b h₁ h₂ => absurd (Nat.lt_trans h₁ h₂) (Nat.lt_irrefl _)⟩
    exact List.eq_of_perm_of_sorted hperm₂ hpairSorted hpair₀
  rw [heq, List.map_map]
  exact List.map_congr_left (fun b _ => hout b)

/-- Witness for C8: three distinctly named workloads whose results complete
in the order c, a, b; the sorted result names are a, b, c. -/
theorem C8_parallel_result_order_witness :
    (sortResults ([("a", 0), ("b", 0), ("c", 0)] : List (String × Nat))
      [⟨"c", []⟩, ⟨"a", []⟩, ⟨"b", []⟩]).map SuiteResult.name =
      ([("a", 0), ("b", 0), ("c", 0)] : List (String × Nat)).map Prod.fst :=
  C8_parallel_result_order [("a", 0), ("b", 0), ("c", 0)]
    (fun b => ⟨b.1, []⟩) [⟨"c", []⟩, ⟨"a", []⟩, ⟨"b", []⟩]
    (by decide) (fun _ => rfl) (by decide)

end Bench
